import Mathlib

/-!
Verification development for the text-schema frontend.

The repository is a React application that sends free-form process text to a
backend, receives a node/edge list (`FlowData`), maps it to React Flow node and
edge objects (`processText` in the main `App` component), lays the nodes out
with ELK (`getLayoutedElements`), lets the user edit/delete elements through a
context menu (`handleDeleteFromContext`), highlights the source sentence of a
selected node (`findHighlightRange`), and exports the diagram to JSON, BPMN and
Mermaid (`ExportPanel`).

This file embeds those functions shallowly: JavaScript strings become `String`
(a sequence of characters), numbers used as coordinates become `Int`, optional
fields become `Option`, and external effects (fetch, ELK, Fuse.js) become
explicit oracle parameters describing their possible outcomes.
-/

namespace TextSchema

/-- JS truthiness of an optional string: `Boolean(s)` is `false` exactly for
`undefined` and the empty string. -/
def strTruthy : Option String → Bool
  | none => false
  | some s => s != ""

/-! ## Data model

Input types mirror the `FlowNode` / `FlowEdge` / `FlowData` interfaces of the
frontend; output types mirror the React Flow `Node`/`Edge` objects that
`processText` builds (the `label` React element of a node renders
`text`/`actor`/`isAction` and carries no further data, so it is not a separate
field here). -/

structure FlowNodeIn where
  id : String
  label : String
  type : Option String
  actor : Option String
  sourceSpan : Option (Nat × Nat)
deriving Repr, DecidableEq

structure FlowEdgeIn where
  «from» : String
  «to» : String
  label : Option String
deriving Repr, DecidableEq

structure FlowLane where
  id : String
  label : String
  nodes : List String
deriving Repr, DecidableEq

structure FlowData where
  nodes : List FlowNodeIn
  edges : List FlowEdgeIn
  lanes : Option (List FlowLane)
deriving Repr, DecidableEq

structure Position where
  x : Int
  y : Int
deriving Repr, DecidableEq

structure NodeData where
  text : String
  actor : Option String
  isAction : Bool
  sourceSpan : Option (Nat × Nat)
deriving Repr, DecidableEq

/-- The colour part of the inline style `processText` attaches to a node. -/
structure NodeStyle where
  backgroundColor : String
  borderColor : String
  textColor : String
deriving Repr, DecidableEq

structure RFNode where
  id : String
  type : String
  data : NodeData
  position : Position
  style : NodeStyle
deriving Repr, DecidableEq

structure RFEdge where
  id : String
  source : String
  target : String
  label : Option String
deriving Repr, DecidableEq

def COLOR_PRIMARY : String := "#2c3e50"
def COLOR_ACTION : String := "#f39c12"
def COLOR_DECISION : String := "#ecf0f1"
def COLOR_DECISION_BORDER : String := "#bdc3c7"

theorem strTruthy_iff (a : Option String) :
    strTruthy a = true ↔ (a ≠ none ∧ a ≠ some "") := by
  cases a with
  | none => simp [strTruthy]
  | some s => simp [strTruthy]

/-! ## `processText`: mapping the backend response -/

/-- The node mapping inside `processText`:
`isAction = node.type === "action" && Boolean(node.actor)`, `data.text` is the
backend label, `data.actor` the backend actor, position starts at the origin. -/
def mkReactFlowNode (node : FlowNodeIn) : RFNode :=
  let isAction := (node.type == some "action") && strTruthy node.actor
  { id := node.id
    type := "default"
    data :=
      { text := node.label
        actor := node.actor
        isAction := isAction
        sourceSpan := node.sourceSpan }
    position := { x := 0, y := 0 }
    style :=
      { backgroundColor := if isAction then COLOR_ACTION else COLOR_DECISION
        borderColor := if isAction then COLOR_ACTION else COLOR_DECISION_BORDER
        textColor := if isAction then "#ffffff" else COLOR_PRIMARY } }

/-- The edge mapping inside `processText`: the i-th backend edge becomes a
React Flow edge with id `e-${from}-${to}-${i}`. -/
def mkReactFlowEdge (edge : FlowEdgeIn) (i : Nat) : RFEdge :=
  { id := "e-" ++ edge.«from» ++ "-" ++ edge.«to» ++ "-" ++ toString i
    source := edge.«from»
    target := edge.«to»
    label := edge.label }

/-- The pure mapping step of `processText`: backend `FlowData` to the React
Flow node and edge lists (before layout). -/
def processTextMap (data : FlowData) : List RFNode × List RFEdge :=
  (data.nodes.map mkReactFlowNode,
   data.edges.enum.map (fun p => mkReactFlowEdge p.2 p.1))

/-- C1. `processText` maps the backend response to React Flow lists of the same
length and order; the i-th output node keeps the i-th input node's id, carries
its label as `data.text` and its actor as `data.actor`, and has
`data.isAction = true` exactly when the input type is `"action"` and the actor
is present and truthy; the j-th output edge has id `e-<from>-<to>-<j>`, source
`from`, target `to`, and the input label. -/
theorem processText_response_mapping (d : FlowData) (i j : Nat)
    (n : FlowNodeIn) (e : FlowEdgeIn)
    (hn : d.nodes[i]? = some n) (he : d.edges[j]? = some e) :
    (processTextMap d).1.length = d.nodes.length ∧
    (processTextMap d).2.length = d.edges.length ∧
    ((processTextMap d).1[i]?).map RFNode.id = some n.id ∧
    ((processTextMap d).1[i]?).map (fun r => r.data.text) = some n.label ∧
    ((processTextMap d).1[i]?).map (fun r => r.data.actor) = some n.actor ∧
    (((processTextMap d).1[i]?).map (fun r => r.data.isAction) = some true ↔
      (n.type = some "action" ∧ n.actor ≠ none ∧ n.actor ≠ some "")) ∧
    ((processTextMap d).2[j]?).map RFEdge.id =
      some ("e-" ++ e.«from» ++ "-" ++ e.«to» ++ "-" ++ toString j) ∧
    ((processTextMap d).2[j]?).map RFEdge.source = some e.«from» ∧
    ((processTextMap d).2[j]?).map RFEdge.target = some e.«to» ∧
    ((processTextMap d).2[j]?).map RFEdge.label = some e.label := by
  have hn1 : (processTextMap d).1[i]? = some (mkReactFlowNode n) := by
    simp [processTextMap, List.getElem?_map, hn]
  have hlen : j < d.edges.length := (List.getElem?_eq_some.mp he).1
  have he1 : (processTextMap d).2[j]? = some (mkReactFlowEdge e j) := by
    have : d.edges.enum[j]? = some (j, e) := by
      simp [List.getElem?_enum, he]
    simp [processTextMap, List.getElem?_map, this]
  refine ⟨by simp [processTextMap], by simp [processTextMap], ?_, ?_, ?_, ?_, ?_, ?_, ?_, ?_⟩
  · simp [hn1, mkReactFlowNode]
  · simp [hn1, mkReactFlowNode]
  · simp [hn1, mkReactFlowNode]
  · simp [hn1, mkReactFlowNode, Bool.and_eq_true, beq_iff_eq, strTruthy_iff,
      and_assoc]
  · simp [he1, mkReactFlowEdge]
  · simp [he1, mkReactFlowEdge]
  · simp [he1, mkReactFlowEdge]
  · simp [he1, mkReactFlowEdge]

/-- Concrete backend response used to instantiate the universally quantified
theorems. -/
def sampleFlowData : FlowData :=
  { nodes :=
      [ { id := "n1", label := "Регистрирует заявку", type := some "action",
          actor := some "Система", sourceSpan := some (0, 10) },
        { id := "n2", label := "Заявка полная?", type := some "decision",
          actor := none, sourceSpan := none } ]
    edges := [ { «from» := "n1", «to» := "n2", label := some "Да" } ]
    lanes := none }

theorem processText_response_mapping_witness :
    (processTextMap sampleFlowData).1.length = sampleFlowData.nodes.length ∧
    (processTextMap sampleFlowData).2.length = sampleFlowData.edges.length ∧
    ((processTextMap sampleFlowData).1[0]?).map RFNode.id = some "n1" ∧
    ((processTextMap sampleFlowData).1[0]?).map (fun r => r.data.text) =
      some "Регистрирует заявку" ∧
    ((processTextMap sampleFlowData).1[0]?).map (fun r => r.data.actor) =
      some (some "Система") ∧
    (((processTextMap sampleFlowData).1[0]?).map (fun r => r.data.isAction) = some true ↔
      (some "action" = some "action" ∧ some "Система" ≠ (none : Option String) ∧
        some "Система" ≠ some "")) ∧
    ((processTextMap sampleFlowData).2[0]?).map RFEdge.id = some "e-n1-n2-0" ∧
    ((processTextMap sampleFlowData).2[0]?).map RFEdge.source = some "n1" ∧
    ((processTextMap sampleFlowData).2[0]?).map RFEdge.target = some "n2" ∧
    ((processTextMap sampleFlowData).2[0]?).map RFEdge.label = some (some "Да") :=
  processText_response_mapping sampleFlowData 0 0
    { id := "n1", label := "Регистрирует заявку", type := some "action",
      actor := some "Система", sourceSpan := some (0, 10) }
    { «from» := "n1", «to» := "n2", label := some "Да" }
    (by decide) (by decide)

/-! ## `ExportPanel`: JSON serializer -/

structure JsonNodeOut where
  id : String
  label : String
  actor : Option String
  type : String
  position : Position
deriving Repr, DecidableEq

structure JsonEdgeOut where
  id : String
  «from» : String
  «to» : String
  label : Option String
deriving Repr, DecidableEq

/-- The data built by `exportToJson` (the Blob/download plumbing around it is a
DOM effect and not modelled). The function returns before building anything
when the node list is empty, modelled as `none`. -/
def exportToJson (nodes : List RFNode) (edges : List RFEdge) :
    Option (List JsonNodeOut × List JsonEdgeOut) :=
  if nodes.isEmpty then none
  else some
    (nodes.map (fun node =>
      { id := node.id
        label := node.data.text
        actor := node.data.actor
        type := if node.data.isAction then "action" else "decision"
        position := node.position }),
     edges.map (fun edge =>
      { id := edge.id
        «from» := edge.source
        «to» := edge.target
        label := edge.label }))

/-- C4. On a non-empty node list `exportToJson` succeeds and serializes nodes
and edges preserving count and order: the i-th output node carries the i-th
node's id, its `data.text` as `label`, its `data.actor` as `actor`, type
`"action"` iff `data.isAction`, and its position; the j-th output edge carries
the j-th edge's id, its source as `from`, its target as `to`, and its label. -/
theorem exportToJson_fields (nodes : List RFNode) (edges : List RFEdge)
    (i j : Nat) (n : RFNode) (e : RFEdge)
    (hn : nodes[i]? = some n) (he : edges[j]? = some e) :
    (exportToJson nodes edges).map (fun out => out.1.length) = some nodes.length ∧
    (exportToJson nodes edges).map (fun out => out.2.length) = some edges.length ∧
    (exportToJson nodes edges).map (fun out => out.1[i]?) =
      some (some
        { id := n.id
          label := n.data.text
          actor := n.data.actor
          type := if n.data.isAction then "action" else "decision"
          position := n.position }) ∧
    (exportToJson nodes edges).map (fun out => out.2[j]?) =
      some (some
        { id := e.id, «from» := e.source, «to» := e.target, label := e.label }) := by
  have hne : nodes.isEmpty = false := by
    cases nodes with
    | nil => simp at hn
    | cons a t => rfl
  refine ⟨?_, ?_, ?_, ?_⟩ <;>
    simp [exportToJson, hne, List.getElem?_map, hn, he]

def nodeA : RFNode :=
  { id := "A"
    type := "default"
    data := { text := "Проверяет заявку", actor := some "Специалист",
              isAction := true, sourceSpan := none }
    position := { x := 10, y := 20 }
    style := { backgroundColor := COLOR_ACTION, borderColor := COLOR_ACTION,
               textColor := "#ffffff" } }

def nodeB : RFNode :=
  { id := "B"
    type := "default"
    data := { text := "Заявка полная?", actor := none,
              isAction := false, sourceSpan := none }
    position := { x := 0, y := 120 }
    style := { backgroundColor := COLOR_DECISION,
               borderColor := COLOR_DECISION_BORDER, textColor := COLOR_PRIMARY } }

def edgeAB : RFEdge := { id := "e-A-B-0", source := "A", target := "B", label := some "Да" }

theorem exportToJson_fields_witness :
    (exportToJson [nodeA, nodeB] [edgeAB]).map (fun out => out.1.length) =
      some ([nodeA, nodeB].length) ∧
    (exportToJson [nodeA, nodeB] [edgeAB]).map (fun out => out.2.length) =
      some ([edgeAB].length) ∧
    (exportToJson [nodeA, nodeB] [edgeAB]).map (fun out => out.1[0]?) =
      some (some
        { id := nodeA.id
          label := nodeA.data.text
          actor := nodeA.data.actor
          type := if nodeA.data.isAction then "action" else "decision"
          position := nodeA.position }) ∧
    (exportToJson [nodeA, nodeB] [edgeAB]).map (fun out => out.2[0]?) =
      some (some
        { id := edgeAB.id, «from» := edgeAB.source, «to» := edgeAB.target,
          label := edgeAB.label }) :=
  exportToJson_fields [nodeA, nodeB] [edgeAB] 0 0 nodeA edgeAB rfl rfl

/-! ## String machinery: `Array.join`, concatenation, `String.indexOf` -/

/-- JS `Array.prototype.join(sep)` on a list of strings. -/
def joinSep (sep : String) : List String → String
  | [] => ""
  | [a] => a
  | a :: b :: t => a ++ sep ++ joinSep sep (b :: t)

/-- Concatenation of a list of strings (the `+=` accumulation loops). -/
def concatAll : List String → String
  | [] => ""
  | a :: t => a ++ concatAll t

theorem joinSep_decomp (sep : String) :
    ∀ (l : List String) (x : String), x ∈ l →
      ∃ pre post, joinSep sep l = pre ++ x ++ post := by
  intro l
  induction l with
  | nil => intro x hx; cases hx
  | cons a t ih =>
    intro x hx
    rcases List.mem_cons.mp hx with h | h
    · subst h
      cases t with
      | nil => exact ⟨"", "", by simp [joinSep]⟩
      | cons b t2 =>
        refine ⟨"", sep ++ joinSep sep (b :: t2), ?_⟩
        simp [joinSep, String.append_assoc]
    · cases t with
      | nil => exact absurd h (List.not_mem_nil x)
      | cons b t2 =>
        rcases ih x h with ⟨pre, post, hp⟩
        refine ⟨a ++ sep ++ pre, post, ?_⟩
        simp [joinSep, hp, String.append_assoc]

theorem concatAll_decomp :
    ∀ (l : List String) (x : String), x ∈ l →
      ∃ pre post, concatAll l = pre ++ x ++ post := by
  intro l
  induction l with
  | nil => intro x hx; cases hx
  | cons a t ih =>
    intro x hx
    rcases List.mem_cons.mp hx with h | h
    · subst h
      exact ⟨"", concatAll t, by simp [concatAll, String.append_assoc]⟩
    · rcases ih x h with ⟨pre, post, hp⟩
      refine ⟨a ++ pre, post, ?_⟩
      simp [concatAll, hp, String.append_assoc]

/-- Scan of `String.prototype.indexOf`: first position (counting from `i`)
where `needle` occurs contiguously in the remaining haystack. -/
def indexOfSeqAux (needle : List Char) : List Char → Nat → Option Nat
  | [], i => if needle.isEmpty then some i else none
  | c :: t, i =>
    if needle.isPrefixOf (c :: t) then some i
    else indexOfSeqAux needle t (i + 1)

/-- The call `hay.indexOf(needle)`, as `Option Nat` instead of `-1` for absence. -/
def indexOfSeq (hay needle : List Char) : Option Nat :=
  indexOfSeqAux needle hay 0

theorem isPrefixOf_append_self (l post : List Char) :
    l.isPrefixOf (l ++ post) = true := by
  induction l with
  | nil => simp [List.isPrefixOf]
  | cons c t ih => simp [List.isPrefixOf, ih]

theorem length_le_of_isPrefixOf :
    ∀ needle hay : List Char, needle.isPrefixOf hay = true →
      needle.length ≤ hay.length := by
  intro needle
  induction needle with
  | nil => intro hay _; simp
  | cons c t ih =>
    intro hay h
    cases hay with
    | nil => simp [List.isPrefixOf] at h
    | cons b hb =>
      simp only [List.isPrefixOf, Bool.and_eq_true] at h
      have := ih hb h.2
      simpa using Nat.succ_le_succ this

theorem indexOfSeqAux_some_bound :
    ∀ (hay needle : List Char) (i k : Nat),
      indexOfSeqAux needle hay i = some k →
      i ≤ k ∧ k - i + needle.length ≤ hay.length := by
  intro hay
  induction hay with
  | nil =>
    intro needle i k h
    simp only [indexOfSeqAux] at h
    by_cases hne : needle.isEmpty
    · rw [if_pos hne] at h
      have hk : k = i := by simpa using h.symm
      subst hk
      have : needle.length = 0 := by
        cases needle with
        | nil => rfl
        | cons a t => simp [List.isEmpty] at hne
      simp [this]
    · rw [if_neg hne] at h
      cases h
  | cons c t ih =>
    intro needle i k h
    simp only [indexOfSeqAux] at h
    by_cases hp : needle.isPrefixOf (c :: t)
    · rw [if_pos hp] at h
      have hk : k = i := by simpa using h.symm
      subst hk
      have := length_le_of_isPrefixOf needle (c :: t) hp
      simpa using this
    · rw [if_neg hp] at h
      rcases ih needle (i + 1) k h with ⟨h1, h2⟩
      constructor
      · omega
      · have : k - i = k - (i + 1) + 1 := by omega
        simp only [List.length_cons]
        omega

theorem indexOfSeq_some_bound (hay needle : List Char) (k : Nat)
    (h : indexOfSeq hay needle = some k) :
    k + needle.length ≤ hay.length := by
  have := indexOfSeqAux_some_bound hay needle 0 k h
  omega

theorem indexOfSeqAux_isSome_of_decomp (needle post : List Char) :
    ∀ (pre : List Char) (i : Nat),
      (indexOfSeqAux needle (pre ++ needle ++ post) i).isSome = true := by
  intro pre
  induction pre with
  | nil =>
    intro i
    simp only [List.nil_append]
    cases hne : needle with
    | nil =>
      cases post with
      | nil => simp [indexOfSeqAux]
      | cons c t => simp [indexOfSeqAux, List.isPrefixOf]
    | cons n nt =>
      have hcons : (n :: nt) ++ post = n :: (nt ++ post) := rfl
      rw [hcons]
      simp only [indexOfSeqAux]
      rw [← hcons, isPrefixOf_append_self]
      simp
  | cons p pt ih =>
    intro i
    have hcons : (p :: pt) ++ needle ++ post = p :: (pt ++ needle ++ post) := by simp
    rw [hcons]
    simp only [indexOfSeqAux]
    by_cases hp : needle.isPrefixOf (p :: (pt ++ needle ++ post))
    · rw [if_pos hp]; rfl
    · rw [if_neg hp]; exact ih (i + 1)

/-- JS `hay.includes(sub)` / `hay.indexOf(sub) !== -1`. -/
def occursIn (hay sub : String) : Bool :=
  (indexOfSeq hay.toList sub.toList).isSome

theorem occursIn_of_eq (hay pre sub post : String)
    (h : hay = pre ++ sub ++ post) : occursIn hay sub = true := by
  subst h
  unfold occursIn indexOfSeq
  have hl : (pre ++ sub ++ post).toList = pre.toList ++ sub.toList ++ post.toList := by
    simp [String.toList, String.data_append]
  rw [hl]
  exact indexOfSeqAux_isSome_of_decomp sub.toList post.toList pre.toList 0

/-! ## `ExportPanel`: BPMN serializer -/

/-- One interpolated `<bpmn:task .../>` or `<bpmn:exclusiveGateway .../>` line. -/
def bpmnNodeElement (node : RFNode) : String :=
  let taskType := if node.data.isAction then "bpmn:task" else "bpmn:exclusiveGateway"
  "    <" ++ taskType ++ " id=\"" ++ node.id ++ "\" name=\"" ++ node.data.text ++ "\" />"

/-- One interpolated `<bpmn:sequenceFlow .../>` line. -/
def bpmnFlowElement (edge : RFEdge) : String :=
  "    <bpmn:sequenceFlow id=\"" ++ edge.id ++ "\" sourceRef=\"" ++ edge.source
    ++ "\" targetRef=\"" ++ edge.target ++ "\" />"

/-- One interpolated `<bpmndi:BPMNShape>` block of the diagram section. -/
def bpmnShapeElement (node : RFNode) : String :=
  "      <bpmndi:BPMNShape id=\"" ++ node.id ++ "_di\" bpmnElement=\"" ++ node.id
    ++ "\">\n        <dc:Bounds x=\"" ++ toString node.position.x ++ "\" y=\""
    ++ toString node.position.y
    ++ "\" width=\"100\" height=\"80\" />\n      </bpmndi:BPMNShape>"

/-- One interpolated `<bpmndi:BPMNEdge>` block of the diagram section. -/
def bpmnDiEdgeElement (edge : RFEdge) : String :=
  "      <bpmndi:BPMNEdge id=\"" ++ edge.id ++ "_di\" bpmnElement=\"" ++ edge.id
    ++ "\">\n        <di:waypoint x=\"150\" y=\"150\" />\n        <di:waypoint x=\"250\" y=\"150\" />\n      </bpmndi:BPMNEdge>"

/-- The template text before the interpolated node elements, ending with the
single opening `<bpmn:process>` tag and its newline. -/
def bpmnHeader : String :=
  "<?xml version=\"1.0\" encoding=\"UTF-8\"?>\n<bpmn:definitions xmlns:bpmn=\"http://www.omg.org/spec/BPMN/20100524/MODEL\"\n                  xmlns:bpmndi=\"http://www.omg.org/spec/BPMN/20100524/DI\"\n                  xmlns:di=\"http://www.omg.org/spec/DD/20100524/DI\"\n                  xmlns:dc=\"http://www.omg.org/spec/DD/20100524/DC\"\n                  id=\"Definitions_1\"\n                  targetNamespace=\"http://bpmn.io/schema/bpmn\">\n  <bpmn:process id=\"Process_1\" isExecutable=\"true\">\n"

/-- The closing `</bpmn:process>` tag followed by the interpolated diagram
section and the end of the template. -/
def bpmnDiagramPart (nodes : List RFNode) (edges : List RFEdge) : String :=
  "  </bpmn:process>\n  <bpmndi:BPMNDiagram id=\"BPMNDiagram_1\">\n    <bpmndi:BPMNPlane id=\"BPMNPlane_1\" bpmnElement=\"Process_1\">\n"
    ++ joinSep "\n" (nodes.map bpmnShapeElement) ++ "\n"
    ++ joinSep "\n" (edges.map bpmnDiEdgeElement) ++ "\n"
    ++ "    </bpmndi:BPMNPlane>\n  </bpmndi:BPMNDiagram>\n</bpmn:definitions>"

/-- The BPMN XML text built by `exportToBpmn`; `none` when the node list is
empty and the function returns without building anything. -/
def exportToBpmn (nodes : List RFNode) (edges : List RFEdge) : Option String :=
  if nodes.isEmpty then none
  else some (bpmnHeader
    ++ joinSep "\n" (nodes.map bpmnNodeElement) ++ "\n"
    ++ joinSep "\n" (edges.map bpmnFlowElement) ++ "\n"
    ++ bpmnDiagramPart nodes edges)

/-- C5. On a non-empty node list the BPMN document consists of the header
ending in the single opening process tag, the node elements joined in order,
then the sequence-flow elements joined in order, then the closing process tag
and diagram section; the i-th node element is a `bpmn:task` when
`data.isAction` and a `bpmn:exclusiveGateway` otherwise, carrying the node's
id and its `data.text` as `name`; the j-th flow element carries the edge's id,
its source as `sourceRef` and its target as `targetRef`. -/
theorem exportToBpmn_process_structure (nodes : List RFNode) (edges : List RFEdge)
    (i j : Nat) (n : RFNode) (e : RFEdge)
    (hn : nodes[i]? = some n) (he : edges[j]? = some e) :
    exportToBpmn nodes edges =
      some (bpmnHeader
        ++ joinSep "\n" (nodes.map bpmnNodeElement) ++ "\n"
        ++ joinSep "\n" (edges.map bpmnFlowElement) ++ "\n"
        ++ bpmnDiagramPart nodes edges) ∧
    (nodes.map bpmnNodeElement).length = nodes.length ∧
    (edges.map bpmnFlowElement).length = edges.length ∧
    (nodes.map bpmnNodeElement)[i]? =
      some ("    <" ++ (if n.data.isAction then "bpmn:task" else "bpmn:exclusiveGateway")
        ++ " id=\"" ++ n.id ++ "\" name=\"" ++ n.data.text ++ "\" />") ∧
    (edges.map bpmnFlowElement)[j]? =
      some ("    <bpmn:sequenceFlow id=\"" ++ e.id ++ "\" sourceRef=\"" ++ e.source
        ++ "\" targetRef=\"" ++ e.target ++ "\" />") := by
  have hne : nodes.isEmpty = false := by
    cases nodes with
    | nil => simp at hn
    | cons a t => rfl
  refine ⟨by simp [exportToBpmn, hne], by simp, by simp, ?_, ?_⟩
  · simp [List.getElem?_map, hn, bpmnNodeElement]
  · simp [List.getElem?_map, he, bpmnFlowElement]

theorem exportToBpmn_process_structure_witness :
    exportToBpmn [nodeA, nodeB] [edgeAB] =
      some (bpmnHeader
        ++ joinSep "\n" ([nodeA, nodeB].map bpmnNodeElement) ++ "\n"
        ++ joinSep "\n" ([edgeAB].map bpmnFlowElement) ++ "\n"
        ++ bpmnDiagramPart [nodeA, nodeB] [edgeAB]) ∧
    ([nodeA, nodeB].map bpmnNodeElement).length = [nodeA, nodeB].length ∧
    ([edgeAB].map bpmnFlowElement).length = [edgeAB].length ∧
    ([nodeA, nodeB].map bpmnNodeElement)[0]? =
      some ("    <" ++ (if nodeA.data.isAction then "bpmn:task" else "bpmn:exclusiveGateway")
        ++ " id=\"" ++ nodeA.id ++ "\" name=\"" ++ nodeA.data.text ++ "\" />") ∧
    ([edgeAB].map bpmnFlowElement)[0]? =
      some ("    <bpmn:sequenceFlow id=\"" ++ edgeAB.id ++ "\" sourceRef=\"" ++ edgeAB.source
        ++ "\" targetRef=\"" ++ edgeAB.target ++ "\" />") :=
  exportToBpmn_process_structure [nodeA, nodeB] [edgeAB] 0 0 nodeA edgeAB rfl rfl

/-! ## `ExportPanel`: Mermaid serializer -/

/-- One node line: `id["text"]` for actions, `id{"text"}` otherwise, with the
four-space indent of the template. -/
def mermaidNodeLine (node : RFNode) : String :=
  let leftBracket := if node.data.isAction then "[" else "\x7b"
  let rightBracket := if node.data.isAction then "]" else "\x7d"
  "    " ++ node.id ++ leftBracket ++ "\"" ++ node.data.text ++ "\"" ++ rightBracket

/-- One edge line: the label part is `|"label"` when `edge.label` is truthy
and empty otherwise. -/
def mermaidEdgeLine (edge : RFEdge) : String :=
  let label := if strTruthy edge.label then "|\"" ++ edge.label.getD "" ++ "\"" else ""
  "    " ++ edge.source ++ " -->" ++ label ++ " " ++ edge.target

/-- The Mermaid text built by `exportToMermaid`; `none` when the node list is
empty and the function returns without building anything. -/
def exportToMermaid (nodes : List RFNode) (edges : List RFEdge) : Option String :=
  if nodes.isEmpty then none
  else some ("graph TD\n"
    ++ concatAll (nodes.map (fun node => mermaidNodeLine node ++ "\n"))
    ++ concatAll (edges.map (fun edge => mermaidEdgeLine edge ++ "\n")))

theorem mermaidNodeLine_eq (node : RFNode) :
    mermaidNodeLine node =
      if node.data.isAction then "    " ++ node.id ++ "[\"" ++ node.data.text ++ "\"]"
      else "    " ++ node.id ++ "\x7b\"" ++ node.data.text ++ "\"\x7d" := by
  unfold mermaidNodeLine
  cases ha : node.data.isAction
  · simp only [Bool.false_eq_true, if_false, String.append_assoc]
    rfl
  · simp only [if_true, String.append_assoc]
    rfl

theorem mermaidEdgeLine_eq (edge : RFEdge) :
    mermaidEdgeLine edge =
      if edge.label ≠ none ∧ edge.label ≠ some "" then
        "    " ++ edge.source ++ " -->|\"" ++ edge.label.getD "" ++ "\" " ++ edge.target
      else "    " ++ edge.source ++ " --> " ++ edge.target := by
  unfold mermaidEdgeLine
  cases hl : edge.label with
  | none =>
    simp only [strTruthy, Bool.false_eq_true, if_false, ne_eq, not_true_eq_false,
      false_and, Option.getD_none, String.append_assoc]
    rfl
  | some l =>
    by_cases h0 : l = ""
    · subst h0
      have hs : strTruthy (some "") = false := rfl
      simp only [hs, Bool.false_eq_true, if_false, ne_eq, Option.some.injEq,
        not_true_eq_false, and_false, String.append_assoc]
      rfl
    · have hs : strTruthy (some l) = true := by simp [strTruthy, h0]
      simp only [hs, if_true, ne_eq, reduceCtorEq, not_false_eq_true, true_and,
        Option.some.injEq, h0, Option.getD_some, String.append_assoc]
      rfl

def edgeEmptyLabel : RFEdge :=
  { id := "e-A-B-0", source := "A", target := "B", label := some "" }

/-- C6 counterexample: the edge `A → B` has a label (the empty string), so the
claim's labeled form would be `    A -->|"" B`, but the serializer treats the
empty label as falsy and emits the bare `    A --> B` line instead. -/
theorem exportToMermaid_label_falsy_cex :
    edgeEmptyLabel.label = some "" ∧
    exportToMermaid [nodeB] [edgeEmptyLabel] =
      some ("graph TD\n    B\x7b\"Заявка полная?\"\x7d\n    A --> B\n") ∧
    ("    A --> B" : String) ≠ "    A -->|\"\" B" := by
  refine ⟨rfl, rfl, by decide⟩

/-- C6 (amended). On a non-empty node list the Mermaid text is the `graph TD`
line followed by one line per node in order (`id["text"]` for actions,
`id{"text"}` otherwise) and one line per edge in order; an edge line has the
labeled form `source -->|"label" target` exactly when the label is present
and non-empty, and the bare form `source --> target` when the label is absent
or the empty string. -/
theorem exportToMermaid_lines (nodes : List RFNode) (edges : List RFEdge)
    (i j : Nat) (n : RFNode) (e : RFEdge)
    (hn : nodes[i]? = some n) (he : edges[j]? = some e) :
    exportToMermaid nodes edges =
      some ("graph TD\n"
        ++ concatAll (nodes.map (fun node => mermaidNodeLine node ++ "\n"))
        ++ concatAll (edges.map (fun edge => mermaidEdgeLine edge ++ "\n"))) ∧
    (nodes.map mermaidNodeLine).length = nodes.length ∧
    (edges.map mermaidEdgeLine).length = edges.length ∧
    (nodes.map mermaidNodeLine)[i]? =
      some (if n.data.isAction then "    " ++ n.id ++ "[\"" ++ n.data.text ++ "\"]"
        else "    " ++ n.id ++ "\x7b\"" ++ n.data.text ++ "\"\x7d") ∧
    (edges.map mermaidEdgeLine)[j]? =
      some (if e.label ≠ none ∧ e.label ≠ some "" then
          "    " ++ e.source ++ " -->|\"" ++ e.label.getD "" ++ "\" " ++ e.target
        else "    " ++ e.source ++ " --> " ++ e.target) := by
  have hne : nodes.isEmpty = false := by
    cases nodes with
    | nil => simp at hn
    | cons a t => rfl
  refine ⟨by simp [exportToMermaid, hne], by simp, by simp, ?_, ?_⟩
  · rw [List.getElem?_map, hn, Option.map_some']
    exact congrArg some (mermaidNodeLine_eq n)
  · rw [List.getElem?_map, he, Option.map_some']
    exact congrArg some (mermaidEdgeLine_eq e)

theorem exportToMermaid_lines_witness :
    exportToMermaid [nodeA, nodeB] [edgeAB] =
      some ("graph TD\n"
        ++ concatAll ([nodeA, nodeB].map (fun node => mermaidNodeLine node ++ "\n"))
        ++ concatAll ([edgeAB].map (fun edge => mermaidEdgeLine edge ++ "\n"))) ∧
    ([nodeA, nodeB].map mermaidNodeLine).length = [nodeA, nodeB].length ∧
    ([edgeAB].map mermaidEdgeLine).length = [edgeAB].length ∧
    ([nodeA, nodeB].map mermaidNodeLine)[0]? =
      some (if nodeA.data.isAction then "    " ++ nodeA.id ++ "[\"" ++ nodeA.data.text ++ "\"]"
        else "    " ++ nodeA.id ++ "\x7b\"" ++ nodeA.data.text ++ "\"\x7d") ∧
    ([edgeAB].map mermaidEdgeLine)[0]? =
      some (if edgeAB.label ≠ none ∧ edgeAB.label ≠ some "" then
          "    " ++ edgeAB.source ++ " -->|\"" ++ edgeAB.label.getD "" ++ "\" " ++ edgeAB.target
        else "    " ++ edgeAB.source ++ " --> " ++ edgeAB.target) :=
  exportToMermaid_lines [nodeA, nodeB] [edgeAB] 0 0 nodeA edgeAB rfl rfl

/-- C10. No escaping of quote or XML metacharacters: for any node of a
non-empty diagram, the BPMN document contains the exact substring
`name="<data.text>"` and the Mermaid document the exact substring
`"<data.text>"`, with the text embedded character for character whatever it
holds. -/
theorem exporters_no_escaping (nodes : List RFNode) (edges : List RFEdge)
    (n : RFNode) (hmem : n ∈ nodes) :
    (exportToBpmn nodes edges).map
      (fun doc => occursIn doc ("name=\"" ++ n.data.text ++ "\"")) = some true ∧
    (exportToMermaid nodes edges).map
      (fun doc => occursIn doc ("\"" ++ n.data.text ++ "\"")) = some true := by
  have hne : nodes.isEmpty = false := by
    cases nodes with
    | nil => cases hmem
    | cons a t => rfl
  constructor
  · obtain ⟨pre, post, hj⟩ := joinSep_decomp "\n" (nodes.map bpmnNodeElement)
      (bpmnNodeElement n) (List.mem_map_of_mem _ hmem)
    simp only [exportToBpmn, hne, Bool.false_eq_true, if_false, Option.map_some',
      Option.some.injEq]
    apply occursIn_of_eq _
      (bpmnHeader ++ pre
        ++ ("    <" ++ (if n.data.isAction then "bpmn:task" else "bpmn:exclusiveGateway")
          ++ " id=\"" ++ n.id ++ "\" "))
      _
      (" />" ++ post ++ "\n" ++ joinSep "\n" (edges.map bpmnFlowElement) ++ "\n"
        ++ bpmnDiagramPart nodes edges)
    rw [hj]
    simp only [bpmnNodeElement, String.append_assoc]
    rfl
  · obtain ⟨pre, post, hj⟩ := concatAll_decomp
      (nodes.map (fun node => mermaidNodeLine node ++ "\n"))
      (mermaidNodeLine n ++ "\n")
      (List.mem_map_of_mem _ hmem)
    simp only [exportToMermaid, hne, Bool.false_eq_true, if_false, Option.map_some',
      Option.some.injEq]
    apply occursIn_of_eq _
      ("graph TD\n" ++ pre
        ++ ("    " ++ n.id ++ (if n.data.isAction then "[" else "\x7b")))
      _
      ((if n.data.isAction then "]" else "\x7d") ++ "\n" ++ post
        ++ concatAll (edges.map (fun edge => mermaidEdgeLine edge ++ "\n")))
    rw [hj]
    simp only [mermaidNodeLine, String.append_assoc]

def nodeEvil : RFNode :=
  { id := "E"
    type := "default"
    data := { text := "say \"hi\" & <b>", actor := none,
              isAction := false, sourceSpan := none }
    position := { x := 0, y := 0 }
    style := { backgroundColor := COLOR_DECISION,
               borderColor := COLOR_DECISION_BORDER, textColor := COLOR_PRIMARY } }

theorem exporters_no_escaping_witness :
    (exportToBpmn [nodeEvil] []).map
      (fun doc => occursIn doc ("name=\"" ++ nodeEvil.data.text ++ "\"")) = some true ∧
    (exportToMermaid [nodeEvil] []).map
      (fun doc => occursIn doc ("\"" ++ nodeEvil.data.text ++ "\"")) = some true :=
  exporters_no_escaping [nodeEvil] [] nodeEvil (List.mem_cons_self nodeEvil [])

/-! ## `getLayoutedElements`: the ELK layout wrapper -/

/-- A child of the graph ELK hands back: a node id with computed coordinates. -/
structure ElkChild where
  id : String
  x : Int
  y : Int
deriving Repr, DecidableEq

/-- Outcome of the `elk.layout` call: a layouted graph whose `children` field
may be missing (covered by `?? []`), or a thrown exception. -/
abbrev ElkOutcome := Except Unit (Option (List ElkChild))

/-- Spreading the `undefined` result of a failed
`nodes.find` yields an object with only `position` set; the missing fields are
modelled with empty defaults. -/
def undefinedRFNode (p : Position) : RFNode :=
  { id := ""
    type := ""
    data := { text := "", actor := none, isAction := false, sourceSpan := none }
    position := p
    style := { backgroundColor := "", borderColor := "", textColor := "" } }

def getLayoutedElements (elkResult : ElkOutcome) (nodes : List RFNode)
    (edges : List RFEdge) : List RFNode × List RFEdge :=
  match elkResult with
  | .error _ => (nodes, edges)
  | .ok ochildren =>
    let children := ochildren.getD []
    (children.map (fun child =>
      match nodes.find? (fun n0 => n0.id == child.id) with
      | some n0 => { n0 with position := { x := child.x, y := child.y } }
      | none => undefinedRFNode { x := child.x, y := child.y }),
     edges)

/-- C3. `getLayoutedElements` always returns the edge list unchanged; when the
layout call throws, the node list is returned unchanged too; on success there
is one output node per ELK child, and the k-th output node is the input node
whose id matches the k-th child with only `position` replaced by the child's
coordinates. -/
theorem getLayoutedElements_frame (children : List ElkChild) (k : Nat)
    (child : ElkChild) (n0 : RFNode) (nodes : List RFNode) (edges : List RFEdge)
    (hc : children[k]? = some child)
    (hfind : nodes.find? (fun m => m.id == child.id) = some n0) :
    (getLayoutedElements (.ok (some children)) nodes edges).2 = edges ∧
    (getLayoutedElements (.error ()) nodes edges).2 = edges ∧
    (getLayoutedElements (.error ()) nodes edges).1 = nodes ∧
    (getLayoutedElements (.ok (some children)) nodes edges).1.length =
      children.length ∧
    (getLayoutedElements (.ok (some children)) nodes edges).1[k]? =
      some { n0 with position := { x := child.x, y := child.y } } := by
  refine ⟨rfl, rfl, rfl, by simp [getLayoutedElements], ?_⟩
  simp [getLayoutedElements, List.getElem?_map, hc, hfind]

theorem getLayoutedElements_frame_witness :
    (getLayoutedElements (.ok (some [{ id := "A", x := 100, y := 200 }]))
      [nodeA, nodeB] [edgeAB]).2 = [edgeAB] ∧
    (getLayoutedElements (.error ()) [nodeA, nodeB] [edgeAB]).2 = [edgeAB] ∧
    (getLayoutedElements (.error ()) [nodeA, nodeB] [edgeAB]).1 = [nodeA, nodeB] ∧
    (getLayoutedElements (.ok (some [{ id := "A", x := 100, y := 200 }]))
      [nodeA, nodeB] [edgeAB]).1.length = [({ id := "A", x := 100, y := 200 } : ElkChild)].length ∧
    (getLayoutedElements (.ok (some [{ id := "A", x := 100, y := 200 }]))
      [nodeA, nodeB] [edgeAB]).1[0]? =
      some { nodeA with position := { x := 100, y := 200 } } :=
  getLayoutedElements_frame [{ id := "A", x := 100, y := 200 }] 0
    { id := "A", x := 100, y := 200 } nodeA [nodeA, nodeB] [edgeAB] rfl (by decide)

/-! ## `processText`: control flow, request and error paths -/

/-- Whitespace as removed by `String.prototype.trim` (the common ASCII set;
the exotic Unicode space characters play no role in the claims). -/
def isJsWhitespace (c : Char) : Bool :=
  c == ' ' || c == '\t' || c == '\n' || c == '\r'

/-- JS `trim()` on a character sequence: drop whitespace from both ends. -/
def trimL (cs : List Char) : List Char :=
  ((cs.dropWhile isJsWhitespace).reverse.dropWhile isJsWhitespace).reverse

/-- The call `s.trim()`. -/
def trimString (s : String) : String := ⟨trimL s.toList⟩

structure AppState where
  nodes : List RFNode
  edges : List RFEdge
  error : Option String
deriving Repr, DecidableEq

/-- Outcome of the `fetch` to the backend as observed by `processText`: parsed
`FlowData`, a response with `ok === false`, or a thrown network/parse error. -/
inductive FetchOutcome where
  | ok (data : FlowData)
  | httpError (status : Nat)
  | thrown
deriving Repr, DecidableEq

structure HttpRequest where
  url : String
  bodyText : String
  bodyModel : String
deriving Repr, DecidableEq

/-- What one `processText` run does: the POST it issues (if any) and the
resulting component state. -/
structure ProcessTextResult where
  request : Option HttpRequest
  state : AppState
deriving Repr, DecidableEq

/-- The default `API_URL` (no `VITE_API_URL` override). -/
def API_URL : String := "http://127.0.0.1:8000"

def errTextRequired : String := "Введите описание процесса для построения схемы"
def errModelRequired : String := "Выберите модель для обработки текста"
def errFetchFailed : String :=
  "Не удалось получить или обработать схему. Убедитесь, что бэкенд-сервер запущен."

def processText (st : AppState) (text selectedModel : String)
    (fetchResult : FetchOutcome) (elkResult : ElkOutcome) : ProcessTextResult :=
  if trimString text = "" then
    { request := none, state := { st with error := some errTextRequired } }
  else if selectedModel = "" then
    { request := none, state := { st with error := some errModelRequired } }
  else
    let request := some { url := API_URL ++ "/process-text",
                          bodyText := text, bodyModel := selectedModel }
    match fetchResult with
    | .httpError _ =>
      { request := request, state := { st with error := some errFetchFailed } }
    | .thrown =>
      { request := request, state := { st with error := some errFetchFailed } }
    | .ok data =>
      let rf := processTextMap data
      let layout := getLayoutedElements elkResult rf.1 rf.2
      if layout.1.length > 0 then
        { request := request,
          state := { nodes := layout.1, edges := layout.2, error := none } }
      else
        { request := request,
          state := { nodes := rf.1, edges := rf.2, error := none } }

/-- C2. `processText` issues the POST to `API_URL/process-text` with the text
and selected model exactly when the trimmed text is non-empty and a model is
selected; on an empty trimmed text or missing model it only sets the matching
error message, and on a non-ok HTTP status (or a thrown fetch) it only sets the
fetch error message — in every error case the nodes and edges states are left
unchanged. -/
theorem processText_error_paths (st : AppState) (text selectedModel : String)
    (fetchResult : FetchOutcome) (elkResult : ElkOutcome) (status : Nat) :
    (trimString text = "" →
      processText st text selectedModel fetchResult elkResult =
        { request := none, state := { st with error := some errTextRequired } }) ∧
    (trimString text ≠ "" → selectedModel = "" →
      processText st text selectedModel fetchResult elkResult =
        { request := none, state := { st with error := some errModelRequired } }) ∧
    (trimString text ≠ "" → selectedModel ≠ "" →
      (processText st text selectedModel fetchResult elkResult).request =
        some { url := API_URL ++ "/process-text",
               bodyText := text, bodyModel := selectedModel }) ∧
    (trimString text ≠ "" → selectedModel ≠ "" → fetchResult = .httpError status →
      processText st text selectedModel fetchResult elkResult =
        { request := some { url := API_URL ++ "/process-text",
                            bodyText := text, bodyModel := selectedModel },
          state := { st with error := some errFetchFailed } }) ∧
    (trimString text ≠ "" → selectedModel ≠ "" → fetchResult = .thrown →
      processText st text selectedModel fetchResult elkResult =
        { request := some { url := API_URL ++ "/process-text",
                            bodyText := text, bodyModel := selectedModel },
          state := { st with error := some errFetchFailed } }) := by
  refine ⟨?_, ?_, ?_, ?_, ?_⟩
  · intro h; simp [processText, h]
  · intro h1 h2; simp [processText, h1, h2]
  · intro h1 h2
    cases fetchResult with
    | ok data =>
      simp only [processText, if_neg h1, if_neg h2]
      split <;> rfl
    | httpError s => simp [processText, h1, h2]
    | thrown => simp [processText, h1, h2]
  · intro h1 h2 h3; subst h3; simp [processText, h1, h2]
  · intro h1 h2 h3; subst h3; simp [processText, h1, h2]

theorem processText_error_paths_witness :
    processText { nodes := [nodeA], edges := [edgeAB], error := none }
        "Клиент подает заявку." "deepseek-chat" (.httpError 500) (.error ()) =
      { request := some { url := API_URL ++ "/process-text",
                          bodyText := "Клиент подает заявку.",
                          bodyModel := "deepseek-chat" },
        state := { nodes := [nodeA], edges := [edgeAB],
                   error := some errFetchFailed } } :=
  (processText_error_paths { nodes := [nodeA], edges := [edgeAB], error := none }
      "Клиент подает заявку." "deepseek-chat" (.httpError 500) (.error ()) 500).2.2.2.1
    (by decide) (by decide) rfl

/-! ## `ModelSelector`: fetching the model list -/

structure Model where
  id : String
  name : String
  description : String
deriving Repr, DecidableEq

inductive ModelsFetchOutcome where
  | ok (models : List Model)
  | httpError (status : Nat)
  | thrown
deriving Repr, DecidableEq

/-- State of `ModelSelector` after the mount effect ran, together with the GET
request it issued and the `onModelChange` call it made (if any). -/
structure ModelSelectorResult where
  requestUrl : String
  models : List Model
  error : Option String
  loadingModels : Bool
  modelChangeCall : Option String
deriving Repr, DecidableEq

def errModelsFailed : String := "Не удалось загрузить список моделей"

def fetchModels (prevModels : List Model) (selectedModel : String)
    (outcome : ModelsFetchOutcome) : ModelSelectorResult :=
  match outcome with
  | .ok ms =>
    { requestUrl := API_URL ++ "/models"
      models := ms
      error := none
      loadingModels := false
      modelChangeCall :=
        if selectedModel = "" ∧ ms.length > 0 then ms.head?.map Model.id else none }
  | .httpError _ =>
    { requestUrl := API_URL ++ "/models"
      models := prevModels
      error := some errModelsFailed
      loadingModels := false
      modelChangeCall := none }
  | .thrown =>
    { requestUrl := API_URL ++ "/models"
      models := prevModels
      error := some errModelsFailed
      loadingModels := false
      modelChangeCall := none }

inductive ModelSelectorView where
  | spinner
  | errorBox (message : String)
  | dropdown (models : List Model)
deriving Repr, DecidableEq

/-- The render branch of `ModelSelector`: loading spinner while fetching, the
error box when `error` is set, the dropdown otherwise. -/
def renderModelSelector (st : ModelSelectorResult) : ModelSelectorView :=
  if st.loadingModels then .spinner
  else
    match st.error with
    | some m => .errorBox m
    | none => .dropdown st.models

/-- C7. The mount effect GETs `API_URL/models`; on success it stores the list,
clears the error, renders the dropdown, and calls `onModelChange` with the
first model's id exactly when no model was selected and the list is non-empty;
on a non-ok status or thrown fetch it renders the error box instead of the
dropdown and selects nothing. -/
theorem modelSelector_fetch (prevModels : List Model) (selectedModel : String)
    (outcome : ModelsFetchOutcome) (ms : List Model) (m0 : Model) (status : Nat) :
    (fetchModels prevModels selectedModel outcome).requestUrl =
      API_URL ++ "/models" ∧
    (outcome = .ok ms →
      (fetchModels prevModels selectedModel outcome).models = ms ∧
      (fetchModels prevModels selectedModel outcome).error = none ∧
      renderModelSelector (fetchModels prevModels selectedModel outcome) =
        .dropdown ms) ∧
    (outcome = .ok ms → ms.head? = some m0 → selectedModel = "" →
      (fetchModels prevModels selectedModel outcome).modelChangeCall =
        some m0.id) ∧
    (outcome = .ok ms → selectedModel ≠ "" →
      (fetchModels prevModels selectedModel outcome).modelChangeCall = none) ∧
    (outcome = .httpError status ∨ outcome = .thrown →
      (fetchModels prevModels selectedModel outcome).modelChangeCall = none ∧
      renderModelSelector (fetchModels prevModels selectedModel outcome) =
        .errorBox errModelsFailed) := by
  refine ⟨?_, ?_, ?_, ?_, ?_⟩
  · cases outcome <;> rfl
  · intro h; subst h
    exact ⟨rfl, rfl, rfl⟩
  · intro h hh hsel; subst h
    have hlen : ms.length > 0 := by
      cases ms with
      | nil => simp at hh
      | cons a t => simp
    simp [fetchModels, hsel, hlen, hh]
  · intro h hsel; subst h
    simp [fetchModels, hsel]
  · intro h
    rcases h with h | h <;> subst h <;> exact ⟨rfl, rfl⟩

def sampleModel : Model :=
  { id := "deepseek-chat", name := "DeepSeek", description := "Базовая модель" }

theorem modelSelector_fetch_witness :
    (fetchModels [] "" (.ok [sampleModel])).modelChangeCall = some sampleModel.id :=
  (modelSelector_fetch [] "" (.ok [sampleModel]) [sampleModel] sampleModel 0).2.2.1
    rfl rfl rfl

/-! ## Context-menu deletion -/

inductive ContextTarget where
  | node
  | edge
deriving Repr, DecidableEq

structure ContextMenu where
  x : Int
  y : Int
  target : ContextTarget
  id : String
deriving Repr, DecidableEq

/-- The handler `handleDeleteFromContext`: new node list, edge list and context-menu
state. With no open menu or outside edit mode it changes nothing. -/
def handleDeleteFromContext (contextMenu : Option ContextMenu) (isEditMode : Bool)
    (nodes : List RFNode) (edges : List RFEdge) :
    List RFNode × List RFEdge × Option ContextMenu :=
  match contextMenu with
  | none => (nodes, edges, contextMenu)
  | some cm =>
    if !isEditMode then (nodes, edges, contextMenu)
    else
      match cm.target with
      | .node =>
        (nodes.filter (fun n0 => n0.id != cm.id),
         edges.filter (fun e0 => e0.source != cm.id && e0.target != cm.id),
         none)
      | .edge =>
        (nodes, edges.filter (fun e0 => e0.id != cm.id), none)

/-- C8. In edit mode with an open menu: deleting a node keeps exactly the
nodes with a different id and exactly the edges touching neither endpoint of
that id, in their original order — so no remaining edge references the deleted
id; deleting an edge keeps the node list untouched and exactly the edges with
a different id, in order. -/
theorem handleDeleteFromContext_spec (cm : ContextMenu) (nodes : List RFNode)
    (edges : List RFEdge) :
    (cm.target = .node →
      (∀ n0, n0 ∈ (handleDeleteFromContext (some cm) true nodes edges).1 ↔
        (n0 ∈ nodes ∧ n0.id ≠ cm.id)) ∧
      (∀ e0, e0 ∈ (handleDeleteFromContext (some cm) true nodes edges).2.1 ↔
        (e0 ∈ edges ∧ e0.source ≠ cm.id ∧ e0.target ≠ cm.id)) ∧
      (handleDeleteFromContext (some cm) true nodes edges).1.Sublist nodes ∧
      (handleDeleteFromContext (some cm) true nodes edges).2.1.Sublist edges) ∧
    (cm.target = .edge →
      (handleDeleteFromContext (some cm) true nodes edges).1 = nodes ∧
      (∀ e0, e0 ∈ (handleDeleteFromContext (some cm) true nodes edges).2.1 ↔
        (e0 ∈ edges ∧ e0.id ≠ cm.id)) ∧
      (handleDeleteFromContext (some cm) true nodes edges).2.1.Sublist edges) := by
  constructor
  · intro ht
    refine ⟨?_, ?_, ?_, ?_⟩
    · intro n0
      simp [handleDeleteFromContext, ht, List.mem_filter, bne_iff_ne]
    · intro e0
      simp [handleDeleteFromContext, ht, List.mem_filter, bne_iff_ne]
    · simp only [handleDeleteFromContext, ht, Bool.not_true, Bool.false_eq_true,
        if_false]
      exact List.filter_sublist nodes
    · simp only [handleDeleteFromContext, ht, Bool.not_true, Bool.false_eq_true,
        if_false]
      exact List.filter_sublist edges
  · intro ht
    refine ⟨?_, ?_, ?_⟩
    · simp [handleDeleteFromContext, ht]
    · intro e0
      simp [handleDeleteFromContext, ht, List.mem_filter, bne_iff_ne]
    · simp only [handleDeleteFromContext, ht, Bool.not_true, Bool.false_eq_true,
        if_false]
      exact List.filter_sublist edges

def cmDeleteB : ContextMenu := { x := 4, y := 7, target := .node, id := "B" }

theorem handleDeleteFromContext_spec_witness :
    (nodeA ∈ (handleDeleteFromContext (some cmDeleteB) true [nodeA, nodeB] [edgeAB]).1 ↔
      (nodeA ∈ [nodeA, nodeB] ∧ nodeA.id ≠ cmDeleteB.id)) ∧
    (edgeAB ∈ (handleDeleteFromContext (some cmDeleteB) true [nodeA, nodeB] [edgeAB]).2.1 ↔
      (edgeAB ∈ [edgeAB] ∧ edgeAB.source ≠ cmDeleteB.id ∧ edgeAB.target ≠ cmDeleteB.id)) :=
  ⟨((handleDeleteFromContext_spec cmDeleteB [nodeA, nodeB] [edgeAB]).1 rfl).1 nodeA,
   ((handleDeleteFromContext_spec cmDeleteB [nodeA, nodeB] [edgeAB]).1 rfl).2.1 edgeAB⟩

/-! ## `findHighlightRange`: sentence splitting and highlight bounds -/

def isSentenceSep (c : Char) : Bool :=
  c == '.' || c == '!' || c == '?'

/-- The split `fullText.split(/[.!?]+/)`, embedded as a split at every single separator
character: a run of separators then yields empty pieces between its members,
and those are exactly the pieces removed by the `trim`-non-empty filter that
follows in `findHighlightRange`, so the composed sentence list is the same. -/
def splitOnSepChar : List Char → List (List Char)
  | [] => [[]]
  | c :: cs =>
    if isSentenceSep c then [] :: splitOnSepChar cs
    else
      match splitOnSepChar cs with
      | [] => [[c]]
      | piece :: rest => (c :: piece) :: rest

theorem splitOnSepChar_head_rest (cs : List Char) :
    ∃ h t, splitOnSepChar cs = h :: t ∧
      (∃ post, cs = h ++ post) ∧
      (∀ p ∈ t, ∃ pre post, cs = pre ++ p ++ post) := by
  induction cs with
  | nil => exact ⟨[], [], rfl, ⟨[], rfl⟩, by intro p hp; cases hp⟩
  | cons c cs ih =>
    rcases ih with ⟨h, t, heq, ⟨post0, hpre⟩, hrest⟩
    by_cases hc : isSentenceSep c
    · refine ⟨[], h :: t, ?_, ⟨c :: cs, rfl⟩, ?_⟩
      · simp [splitOnSepChar, hc, heq]
      · intro p hp
        rcases List.mem_cons.mp hp with h1 | h1
        · subst h1
          exact ⟨[c], post0, by simp [hpre]⟩
        · rcases hrest p h1 with ⟨pre, post, hd⟩
          exact ⟨c :: pre, post, by simp [hd]⟩
    · refine ⟨c :: h, t, ?_, ⟨post0, by simp [hpre]⟩, ?_⟩
      · simp [splitOnSepChar, hc, heq]
      · intro p hp
        rcases hrest p hp with ⟨pre, post, hd⟩
        exact ⟨c :: pre, post, by simp [hd]⟩

theorem splitOnSepChar_decomp (cs p : List Char) (hp : p ∈ splitOnSepChar cs) :
    ∃ pre post, cs = pre ++ p ++ post := by
  rcases splitOnSepChar_head_rest cs with ⟨h, t, heq, ⟨post0, hpre⟩, hrest⟩
  rw [heq] at hp
  rcases List.mem_cons.mp hp with h1 | h1
  · subst h1; exact ⟨[], post0, by simp [hpre]⟩
  · exact hrest p h1

theorem dropWhile_decomp (p : Char → Bool) (cs : List Char) :
    ∃ pre, cs = pre ++ cs.dropWhile p := by
  induction cs with
  | nil => exact ⟨[], rfl⟩
  | cons c t ih =>
    rw [List.dropWhile_cons]
    by_cases hc : p c = true
    · simp only [hc, if_true]
      rcases ih with ⟨pre, hp⟩
      exact ⟨c :: pre, by rw [List.cons_append, ← hp]⟩
    · simp only [hc, Bool.false_eq_true, if_false]
      exact ⟨[], rfl⟩

theorem trimL_decomp (cs : List Char) :
    ∃ pre post, cs = pre ++ trimL cs ++ post := by
  rcases dropWhile_decomp isJsWhitespace cs with ⟨pre, hp⟩
  rcases dropWhile_decomp isJsWhitespace
    ((cs.dropWhile isJsWhitespace).reverse) with ⟨pre2, hp2⟩
  refine ⟨pre, pre2.reverse, ?_⟩
  have hd : cs.dropWhile isJsWhitespace = trimL cs ++ pre2.reverse := by
    have h3 := congrArg List.reverse hp2
    simpa [trimL, List.reverse_append] using h3
  calc cs = pre ++ cs.dropWhile isJsWhitespace := hp
    _ = pre ++ (trimL cs ++ pre2.reverse) := congrArg (pre ++ ·) hd
    _ = pre ++ trimL cs ++ pre2.reverse := by rw [List.append_assoc]

structure SentenceInfo where
  text : List Char
  startPos : Int
  endPos : Int
deriving Repr, DecidableEq

/-- One entry of the `sentences` array: the trimmed piece, the position of its
first occurrence in the full text (`indexOf`, `-1` when absent) and the end
offset `startPos + trimmed.length`. -/
def mkSentenceInfo (fullText piece : List Char) : SentenceInfo :=
  let trimmed := trimL piece
  let startPos : Int :=
    match indexOfSeq fullText trimmed with
    | some k => (k : Int)
    | none => -1
  { text := trimmed, startPos := startPos,
    endPos := startPos + (trimmed.length : Int) }

def sentencesOf (fullText : List Char) : List SentenceInfo :=
  ((splitOnSepChar fullText).filter (fun s => (trimL s).length > 0)).map
    (mkSentenceInfo fullText)

/-- Abstraction of the `Fuse` search: given the sentence objects and the query
it returns the result list; each result carries its `.item` (a reference to
one of the searched objects, which the safety theorem assumes) and the outcome
of the float score test `1 - (results[0].score || 1) > 0.2`. -/
def FuseSearch : Type :=
  List SentenceInfo → List Char → List (SentenceInfo × Bool)

def findHighlightRange (fuse : FuseSearch) (fullText : List Char)
    (nodeText : Option (List Char)) : Option (Int × Int) :=
  match nodeText with
  | none => none
  | some nt =>
    if (trimL nt).length = 0 then none
    else
      let sentences := sentencesOf fullText
      if sentences.length = 0 then none
      else
        match fuse sentences (trimL nt) with
        | [] => none
        | (item, passes) :: _ =>
          if passes then some (item.startPos, item.endPos) else none

theorem sentencesOf_bounds (fullText : List Char) (s : SentenceInfo)
    (hs : s ∈ sentencesOf fullText) :
    0 ≤ s.startPos ∧ s.startPos ≤ s.endPos ∧
      s.endPos ≤ (fullText.length : Int) := by
  rcases List.mem_map.mp hs with ⟨p, hpmem, hmk⟩
  have hpsplit : p ∈ splitOnSepChar fullText := (List.mem_filter.mp hpmem).1
  rcases splitOnSepChar_decomp fullText p hpsplit with ⟨pre, post, hdec⟩
  rcases trimL_decomp p with ⟨pre2, post2, hdec2⟩
  have hfull : fullText = (pre ++ pre2) ++ trimL p ++ (post2 ++ post) := by
    calc fullText = pre ++ p ++ post := hdec
      _ = pre ++ (pre2 ++ trimL p ++ post2) ++ post := by rw [← hdec2]
      _ = (pre ++ pre2) ++ trimL p ++ (post2 ++ post) := by
          simp [List.append_assoc]
  have hsome : (indexOfSeq fullText (trimL p)).isSome = true := by
    rw [hfull]
    exact indexOfSeqAux_isSome_of_decomp (trimL p) (post2 ++ post) (pre ++ pre2) 0
  rcases Option.isSome_iff_exists.mp hsome with ⟨k, hk⟩
  have hbound : k + (trimL p).length ≤ fullText.length :=
    indexOfSeq_some_bound fullText (trimL p) k hk
  subst hmk
  unfold mkSentenceInfo
  simp only [hk]
  refine ⟨by positivity, ?_, ?_⟩
  · have : (0 : Int) ≤ ((trimL p).length : Int) := by positivity
    omega
  · have : ((k : Int) + ((trimL p).length : Int)) ≤ (fullText.length : Int) := by
      exact_mod_cast hbound
    omega

/-- C9. `findHighlightRange` returns `null` when the node text is missing or
trims to nothing; and whenever it returns a range — granting Fuse's contract
that every result's `.item` is one of the searched sentence objects — the
bounds satisfy `0 ≤ start ≤ end ≤ fullText.length`, so the three `substring`
calls of the highlight overlay in `TextEditor` are always in range. -/
theorem findHighlightRange_safe (fuse : FuseSearch)
    (hfuse : ∀ ss q r, r ∈ fuse ss q → r.1 ∈ ss)
    (fullText nt : List Char) (nodeText : Option (List Char)) (a b : Int) :
    findHighlightRange fuse fullText none = none ∧
    (trimL nt = [] → findHighlightRange fuse fullText (some nt) = none) ∧
    (findHighlightRange fuse fullText nodeText = some (a, b) →
      0 ≤ a ∧ a ≤ b ∧ b ≤ (fullText.length : Int)) := by
  refine ⟨rfl, ?_, ?_⟩
  · intro htrim
    simp [findHighlightRange, htrim]
  · intro hres
    cases nodeText with
    | none => simp [findHighlightRange] at hres
    | some nt2 =>
      by_cases htrim : (trimL nt2).length = 0
      · simp [findHighlightRange, htrim] at hres
      · by_cases hlen : (sentencesOf fullText).length = 0
        · simp [findHighlightRange, htrim, hlen] at hres
        · rcases hfr : fuse (sentencesOf fullText) (trimL nt2) with _ | ⟨⟨item, passes⟩, rest⟩
          · simp [findHighlightRange, htrim, hlen, hfr] at hres
          · have hmem : (item, passes) ∈ fuse (sentencesOf fullText) (trimL nt2) := by
              rw [hfr]; exact List.mem_cons_self _ _
            have hitem : item ∈ sentencesOf fullText := hfuse _ _ _ hmem
            have hb := sentencesOf_bounds fullText item hitem
            cases hp : passes with
            | false => simp [findHighlightRange, htrim, hlen, hfr, hp] at hres
            | true =>
              have heq : some (item.startPos, item.endPos) = some (a, b) := by
                simpa [findHighlightRange, htrim, hlen, hfr, hp] using hres
              have h1 : item.startPos = a := by
                have := Option.some.inj heq
                exact congrArg Prod.fst this
              have h2 : item.endPos = b := by
                have := Option.some.inj heq
                exact congrArg Prod.snd this
              rw [← h1, ← h2]
              exact hb

/-- A concrete Fuse behaviour for the witness: return every sentence, in
order, as passing the threshold. -/
def fuseAll : FuseSearch := fun ss _q => ss.map (fun s => (s, true))

theorem findHighlightRange_safe_witness :
    (0 : Int) ≤ 0 ∧ (0 : Int) ≤ 2 ∧ (2 : Int) ≤ ((("Ab. Cd.").toList.length : Nat) : Int) :=
  (findHighlightRange_safe fuseAll
      (by
        intro ss q r hr
        rcases List.mem_map.mp hr with ⟨s, hs, hr2⟩
        rw [← hr2]
        exact hs)
      ("Ab. Cd.").toList ("Ab").toList (some ("Ab").toList) 0 2).2.2 rfl

end TextSchema
